import Mathlib

/-!
Verification of the register-flush primitive `flush_registers_and_call`
(src/src/reg_flush_impl.c).

The C function is:

  void flush_registers_and_call(callback_func callback, void *data) {
    jmp_buf env;
    memset(&env, 0, sizeof(jmp_buf));
    setjmp(env);
    callback(data);
  }

Shallow embedding.  Memory is modelled at pointer-word granularity: a memory
is a total map from cell addresses to word values.  The machine state carries
the thread stack (with a stack pointer `sp`: cells below `sp` are the live
stack, reserving a frame-local buffer bumps `sp`), the heap, the global
segment and the register file.  `sizeof(jmp_buf)` (in cells), the number of
registers the platform register-context-save operation captures, and the
value `setjmp` returns on a direct call are platform constants, gathered in
a `Platform` structure.  A callback is C code we do not see; it is modelled
semantically as a state transformer that may also emit an event trace, and
that returns `none` when it diverges.  Every step of the primitive is
recorded as an event, so ordering and counting properties are statements
about the emitted trace.
-/

/-- A memory segment: total map from cell addresses to pointer-sized words. -/
abbrev Mem := Nat → Nat

/-- C `memset(base, v, n)` at cell granularity: write value `v` to the `n`
cells starting at `base`, leave every other cell unchanged. -/
def memset (m : Mem) (base n v : Nat) : Mem :=
  fun a => if base ≤ a ∧ a < base + n then v else m a

/-- The memory effect of the register-context-save operation: the `n`
captured registers are written, in order, into the buffer starting at
`base`.  Cells outside the buffer are untouched. -/
def saveRegs (regs : Nat → Nat) (base n : Nat) (m : Mem) : Mem :=
  fun a => if base ≤ a ∧ a < base + n then regs (a - base) else m a

/-- `setjmp(env)` modelled as a pair: the updated memory (registers spilled
into the buffer) and the integer value `setjmp` returns on the direct call.
The C code discards that integer. -/
def setjmpOp (regs : Nat → Nat) (base n ret : Nat) (m : Mem) : Mem × Nat :=
  (saveRegs regs base n m, ret)

/-- Platform constants for the embedding. -/
structure Platform where
  /-- `sizeof(jmp_buf)` in cells. -/
  jmpBufSize : Nat
  /-- how many registers the register-context-save operation captures. -/
  numRegs : Nat
  /-- the value `setjmp` returns on the direct (non-longjmp) call. -/
  sjReturn : Nat
  /-- the captured register block fits in the `jmp_buf`. -/
  regs_fit : numRegs ≤ jmpBufSize
  /-- a `jmp_buf` occupies at least one cell. -/
  size_pos : 0 < jmpBufSize

/-- Machine state: stack pointer, stack, heap, globals, register file. -/
structure Machine where
  sp : Nat
  stack : Mem
  heap : Mem
  globals : Mem
  regs : Nat → Nat

/-- Observable events of a run. -/
inductive Event where
  /-- a buffer of `size` cells is reserved on the stack at `base`. -/
  | reserve (base size : Nat) : Event
  /-- the `size` cells at `base` are zero-filled. -/
  | zerofill (base size : Nat) : Event
  /-- the register-context-save operation writes into the buffer at `base`. -/
  | capture (base : Nat) : Event
  /-- the callback with identity `cbId` is entered with argument `data`. -/
  | call (cbId data : Nat) : Event
  /-- a non-local control transfer through the buffer at `base`. -/
  | jump (base : Nat) : Event
  /-- an error is reported. -/
  | err : Event
  /-- normal return to the caller. -/
  | ret : Event
deriving DecidableEq

/-- A callback: an identity (the function pointer value) and a semantic
action on the machine state, emitting a trace; `none` models divergence. -/
structure Callback where
  id : Nat
  run : Nat → Machine → Option (Machine × List Event)

/-- Step 1 of the body, `jmp_buf env;`: reserve `sizeof(jmp_buf)` cells on
the current frame by bumping the stack pointer. -/
def reserveStep (P : Platform) (s : Machine) : Machine :=
  { s with sp := s.sp + P.jmpBufSize }

/-- Step 2, `memset(&env, 0, sizeof(jmp_buf));`: zero-fill the buffer. -/
def zeroFillStep (P : Platform) (base : Nat) (s : Machine) : Machine :=
  { s with stack := memset s.stack base P.jmpBufSize 0 }

/-- Step 3, `setjmp(env);`: spill the captured registers into the buffer;
the returned integer is discarded (only `.fst` is used). -/
def captureStep (P : Platform) (base : Nat) (s : Machine) : Machine :=
  { s with stack := (setjmpOp s.regs base P.numRegs P.sjReturn s.stack).fst }

/-- The machine state in which the callback runs: the result of steps 1-3
applied to the entry state, the buffer sitting at the entry `sp`. -/
def preState (P : Platform) (s : Machine) : Machine :=
  captureStep P s.sp (zeroFillStep P s.sp (reserveStep P s))

/-- The full trace of one call: the four primitive steps, then the
callback trace, then the normal return. -/
def mainTrace (P : Platform) (cId d base : Nat) (tcb : List Event) : List Event :=
  Event.reserve base P.jmpBufSize :: Event.zerofill base P.jmpBufSize ::
    Event.capture base :: Event.call cId d :: (tcb ++ [Event.ret])

/-- The embedded `flush_registers_and_call`: reserve, zero-fill, capture,
invoke the callback, return (popping the frame).  `none` exactly when the
callback diverges. -/
def flush_registers_and_call (P : Platform) (callback : Callback) (data : Nat)
    (s : Machine) : Option (Machine × List Event) :=
  match callback.run data (preState P s) with
  | none => none
  | some (s4, tcb) =>
      some ({ s4 with sp := s.sp }, mainTrace P callback.id data s.sp tcb)

/-- Number of times the callback with identity `cbId` is entered in a trace. -/
def countCalls (cbId : Nat) (t : List Event) : Nat :=
  (t.filter (fun e => match e with
    | Event.call i _ => i == cbId
    | _ => false)).length

/-- Number of non-local control transfers in a trace. -/
def countJumps (t : List Event) : Nat :=
  (t.filter (fun e => match e with
    | Event.jump _ => true
    | _ => false)).length

/-- Number of reported errors in a trace. -/
def countErrs (t : List Event) : Nat :=
  (t.filter (fun e => match e with
    | Event.err => true
    | _ => false)).length

/-- The word values a conservative scan of the live stack (cells below the
stack pointer) can discover in a state. -/
def scanVals (s : Machine) : List Nat :=
  (List.range s.sp).map s.stack

/-- A small concrete platform used to exercise the theorems. -/
def P0 : Platform :=
  { jmpBufSize := 4, numRegs := 2, sjReturn := 0,
    regs_fit := by decide, size_pos := by decide }

/-- A concrete entry machine state. -/
def m0 : Machine :=
  { sp := 0, stack := fun _ => 0, heap := fun _ => 0,
    globals := fun _ => 0, regs := fun a => a + 10 }

/-- A concrete terminating callback that leaves the state alone. -/
def cb0 : Callback :=
  { id := 7, run := fun _ s => some (s, []) }

/-- An outer callback that itself calls the primitive again with a second
callback `inner` and data `innerData` (the nested-call scenario). -/
def outerOf (P : Platform) (inner : Callback) (innerData oid : Nat) : Callback :=
  { id := oid,
    run := fun _d s => flush_registers_and_call P inner innerData s }

/-- Defining equation of the primitive on a terminating callback: the result
state is the callback result with the caller frame restored, and the trace
is the fixed step sequence around the callback trace. -/
theorem invoke_eq (P : Platform) (c : Callback) (d : Nat) (s s4 : Machine)
    (tcb : List Event) (hc : c.run d (preState P s) = some (s4, tcb)) :
    flush_registers_and_call P c d s =
      some ({ s4 with sp := s.sp }, mainTrace P c.id d s.sp tcb) := by
  simp [flush_registers_and_call, hc]

/-- Count lemma: the fixed step sequence contributes exactly one entry into
the callback `cId`, the one carrying argument `d`. -/
theorem countCalls_mainTrace (P : Platform) (cId d base : Nat)
    (tcb : List Event) :
    countCalls cId (mainTrace P cId d base tcb) = countCalls cId tcb + 1 := by
  simp [countCalls, mainTrace, List.filter_append, List.length_append]

/-- Claim C1: for every callback `c` and every data value `d`,
`invoke(c, d)` calls `c` exactly once, with argument exactly `d`, before
`invoke` returns: the trace of a call adds exactly one entry into `c` beyond
whatever the callback itself does, that entry carries exactly `d`, every
other entry into `c` comes from the callback trace, and the entry occurs
before the final return event. -/
theorem invoke_calls_exactly_once (P : Platform) (c : Callback) (d : Nat)
    (s s4 : Machine) (tcb : List Event)
    (hc : c.run d (preState P s) = some (s4, tcb)) :
    ∃ sf tr, flush_registers_and_call P c d s = some (sf, tr) ∧
      tr = mainTrace P c.id d s.sp tcb ∧
      countCalls c.id tr = countCalls c.id tcb + 1 ∧
      Event.call c.id d ∈ tr ∧
      (∀ d2, Event.call c.id d2 ∈ tr → Event.call c.id d2 ∈ tcb ∨ d2 = d) ∧
      tr.getLast? = some Event.ret := by
  refine ⟨{ s4 with sp := s.sp }, mainTrace P c.id d s.sp tcb,
    invoke_eq P c d s s4 tcb hc, rfl, countCalls_mainTrace P c.id d s.sp tcb,
    ?_, ?_, ?_⟩
  · simp [mainTrace]
  · intro d2 hd2
    simp [mainTrace] at hd2
    rcases hd2 with h | h
    · exact Or.inr h
    · exact Or.inl h
  · have hsplit : mainTrace P c.id d s.sp tcb =
        (Event.reserve s.sp P.jmpBufSize :: Event.zerofill s.sp P.jmpBufSize ::
         Event.capture s.sp :: Event.call c.id d :: tcb) ++ [Event.ret] := by
      simp [mainTrace]
    rw [hsplit, List.getLast?_concat]

/-- Witness for C1 at a concrete platform, machine, callback and data. -/
theorem invoke_calls_exactly_once_witness :
    cb0.run 5 (preState P0 m0) = some (preState P0 m0, []) ∧
    (∃ sf tr, flush_registers_and_call P0 cb0 5 m0 = some (sf, tr) ∧
      tr = mainTrace P0 cb0.id 5 m0.sp [] ∧
      countCalls cb0.id tr = countCalls cb0.id [] + 1 ∧
      Event.call cb0.id 5 ∈ tr ∧
      (∀ d2, Event.call cb0.id d2 ∈ tr → Event.call cb0.id d2 ∈ ([] : List Event) ∨ d2 = 5) ∧
      tr.getLast? = some Event.ret) :=
  ⟨rfl, invoke_calls_exactly_once P0 cb0 5 m0 (preState P0 m0) [] rfl⟩

/-- Claim C2: every pointer-sized value resident in a register captured by
the register-context-save operation at the moment of capture has, in the
state in which the callback runs, been written into the snapshot buffer on
the stack, at an address below the stack pointer, and is therefore
discoverable by a byte-range scan of the live stack performed by the
callback or by any code running before the frame is popped. -/
theorem captured_regs_discoverable (P : Platform) (s : Machine) (i : Nat)
    (hi : i < P.numRegs) :
    (preState P s).stack (s.sp + i) = s.regs i ∧
    s.sp + i < (preState P s).sp ∧
    s.regs i ∈ scanVals (preState P s) := by
  have hfit : i < P.jmpBufSize := lt_of_lt_of_le hi P.regs_fit
  have hval : (preState P s).stack (s.sp + i) = s.regs i := by
    simp [preState, captureStep, setjmpOp, saveRegs, zeroFillStep,
      reserveStep, hi]
  have hsp : s.sp + i < (preState P s).sp := by
    simp [preState, captureStep, zeroFillStep, reserveStep]
    omega
  refine ⟨hval, hsp, ?_⟩
  simp only [scanVals, List.mem_map]
  exact ⟨s.sp + i, List.mem_range.mpr hsp, hval⟩

/-- Witness for C2 at a concrete platform, machine and register index. -/
theorem captured_regs_discoverable_witness :
    1 < P0.numRegs ∧
    ((preState P0 m0).stack (m0.sp + 1) = m0.regs 1 ∧
     m0.sp + 1 < (preState P0 m0).sp ∧
     m0.regs 1 ∈ scanVals (preState P0 m0)) :=
  ⟨by decide, captured_regs_discoverable P0 m0 1 (by decide)⟩

/-- Claim C3: every execution of `invoke` performs exactly these steps in
this strict order, with no branching and no loop: reserve the buffer on the
current frame, zero-fill it completely, execute the register-context-save
operation into it, invoke `callback(data)`, return; the buffer is entirely
zero immediately before capture, and capture happens before the callback
runs (the capture event precedes the call event in every trace). -/
theorem invoke_step_order (P : Platform) (c : Callback) (d : Nat)
    (s s4 : Machine) (tcb : List Event)
    (hc : c.run d (preState P s) = some (s4, tcb)) :
    flush_registers_and_call P c d s =
      some ({ s4 with sp := s.sp },
        [Event.reserve s.sp P.jmpBufSize, Event.zerofill s.sp P.jmpBufSize,
         Event.capture s.sp, Event.call c.id d] ++ tcb ++ [Event.ret]) ∧
    preState P s = captureStep P s.sp (zeroFillStep P s.sp (reserveStep P s)) ∧
    (∀ i, i < P.jmpBufSize →
      (zeroFillStep P s.sp (reserveStep P s)).stack (s.sp + i) = 0) := by
  refine ⟨?_, rfl, ?_⟩
  · rw [invoke_eq P c d s s4 tcb hc]
    simp [mainTrace]
  · intro i hi
    simp [zeroFillStep, memset, reserveStep, hi]

/-- Witness for C3 at a concrete platform, machine, callback and data. -/
theorem invoke_step_order_witness :
    cb0.run 5 (preState P0 m0) = some (preState P0 m0, []) ∧
    (flush_registers_and_call P0 cb0 5 m0 =
      some ({ preState P0 m0 with sp := m0.sp },
        [Event.reserve m0.sp P0.jmpBufSize, Event.zerofill m0.sp P0.jmpBufSize,
         Event.capture m0.sp, Event.call cb0.id 5] ++ [] ++ [Event.ret]) ∧
     preState P0 m0 = captureStep P0 m0.sp (zeroFillStep P0 m0.sp (reserveStep P0 m0)) ∧
     (∀ i, i < P0.jmpBufSize →
       (zeroFillStep P0 m0.sp (reserveStep P0 m0)).stack (m0.sp + i) = 0)) :=
  ⟨rfl, invoke_step_order P0 cb0 5 m0 (preState P0 m0) [] rfl⟩

/-- The stack pointer seen by the callback: entry stack pointer plus the
reserved buffer. -/
theorem preState_sp (P : Platform) (s : Machine) :
    (preState P s).sp = s.sp + P.jmpBufSize := by
  simp [preState, captureStep, zeroFillStep, reserveStep]

/-- Claim C4: on every call, no non-local control transfer is ever taken:
the primitive itself performs exactly the listed stack-local events, none of
which is a jump through the snapshot buffer (so any jump in the full trace
comes from the callback alone), the buffer contents are never read back by
the primitive, and after the call returns execution resumes in the caller,
with the trace ending in a normal return and the caller frame restored. -/
theorem invoke_no_nonlocal_transfer (P : Platform) (c : Callback) (d : Nat)
    (s s4 : Machine) (tcb : List Event)
    (hc : c.run d (preState P s) = some (s4, tcb)) :
    ∃ sf tr, flush_registers_and_call P c d s = some (sf, tr) ∧
      countJumps tr = countJumps tcb ∧
      (∀ b, Event.jump b ∈ tr → Event.jump b ∈ tcb) ∧
      tr.getLast? = some Event.ret ∧
      sf.sp = s.sp := by
  refine ⟨{ s4 with sp := s.sp }, mainTrace P c.id d s.sp tcb,
    invoke_eq P c d s s4 tcb hc, ?_, ?_, ?_, rfl⟩
  · simp [countJumps, mainTrace, List.filter_append]
  · intro b hb
    simp [mainTrace] at hb
    exact hb
  · have hsplit : mainTrace P c.id d s.sp tcb =
        (Event.reserve s.sp P.jmpBufSize :: Event.zerofill s.sp P.jmpBufSize ::
         Event.capture s.sp :: Event.call c.id d :: tcb) ++ [Event.ret] := by
      simp [mainTrace]
    rw [hsplit, List.getLast?_concat]

/-- Witness for C4 at a concrete platform, machine, callback and data. -/
theorem invoke_no_nonlocal_transfer_witness :
    cb0.run 5 (preState P0 m0) = some (preState P0 m0, []) ∧
    (∃ sf tr, flush_registers_and_call P0 cb0 5 m0 = some (sf, tr) ∧
      countJumps tr = countJumps [] ∧
      (∀ b, Event.jump b ∈ tr → Event.jump b ∈ ([] : List Event)) ∧
      tr.getLast? = some Event.ret ∧
      sf.sp = m0.sp) :=
  ⟨rfl, invoke_no_nonlocal_transfer P0 cb0 5 m0 (preState P0 m0) [] rfl⟩

/-- Claim C5: nested invocation is correct.  If the callback passed to the
primitive itself calls the primitive with a second callback, both callbacks
fire exactly once, in the order outer capture, outer callback entry, inner
capture, inner callback entry, inner return, outer return; each nested call
uses its own frame-local snapshot buffer (the inner buffer starts exactly
one buffer above the outer one, so the two regions are disjoint), and the
outer call returns, restoring the caller frame, only after its callback
(including the nested call) has returned. -/
theorem invoke_nested (P : Platform) (inner : Callback) (oid d d2 : Nat)
    (s sf : Machine) (tin : List Event)
    (hin : inner.run d2 (preState P (preState P s)) = some (sf, tin))
    (hne : oid ≠ inner.id)
    (h1 : countCalls oid tin = 0) (h2 : countCalls inner.id tin = 0) :
    ∃ sr tr,
      flush_registers_and_call P (outerOf P inner d2 oid) d s = some (sr, tr) ∧
      tr = [Event.reserve s.sp P.jmpBufSize, Event.zerofill s.sp P.jmpBufSize,
            Event.capture s.sp, Event.call oid d,
            Event.reserve (s.sp + P.jmpBufSize) P.jmpBufSize,
            Event.zerofill (s.sp + P.jmpBufSize) P.jmpBufSize,
            Event.capture (s.sp + P.jmpBufSize), Event.call inner.id d2]
           ++ tin ++ [Event.ret, Event.ret] ∧
      countCalls oid tr = 1 ∧
      countCalls inner.id tr = 1 ∧
      s.sp < s.sp + P.jmpBufSize ∧
      sr.sp = s.sp := by
  have hrun : (outerOf P inner d2 oid).run d (preState P s) =
      some ({ sf with sp := (preState P s).sp },
        mainTrace P inner.id d2 (preState P s).sp tin) := by
    show flush_registers_and_call P inner d2 (preState P s) = _
    exact invoke_eq P inner d2 (preState P s) sf tin hin
  refine ⟨_, _, invoke_eq P (outerOf P inner d2 oid) d s _ _ hrun, ?_, ?_, ?_,
    by have := P.size_pos; omega, rfl⟩
  · simp [outerOf, mainTrace, preState_sp]
  · have hbeq : (inner.id == oid) = false := by
      simp [Nat.beq_eq_true_eq]
      exact fun h => hne h.symm
    simp [outerOf, countCalls, mainTrace, List.filter_append, hbeq,
      preState_sp]
    simpa [countCalls] using h1
  · have hbeq : (oid == inner.id) = false := by
      simp [Nat.beq_eq_true_eq]
      exact hne
    simp [outerOf, countCalls, mainTrace, List.filter_append, hbeq,
      preState_sp]
    simpa [countCalls] using h2

/-- Witness for C5: a concrete nested call with distinct callback ids. -/
theorem invoke_nested_witness :
    cb0.run 3 (preState P0 (preState P0 m0)) =
      some (preState P0 (preState P0 m0), []) ∧ 9 ≠ cb0.id ∧
    countCalls 9 [] = 0 ∧ countCalls cb0.id [] = 0 ∧
    (∃ sr tr,
      flush_registers_and_call P0 (outerOf P0 cb0 3 9) 1 m0 = some (sr, tr) ∧
      tr = [Event.reserve m0.sp P0.jmpBufSize, Event.zerofill m0.sp P0.jmpBufSize,
            Event.capture m0.sp, Event.call 9 1,
            Event.reserve (m0.sp + P0.jmpBufSize) P0.jmpBufSize,
            Event.zerofill (m0.sp + P0.jmpBufSize) P0.jmpBufSize,
            Event.capture (m0.sp + P0.jmpBufSize), Event.call cb0.id 3]
           ++ [] ++ [Event.ret, Event.ret] ∧
      countCalls 9 tr = 1 ∧
      countCalls cb0.id tr = 1 ∧
      m0.sp < m0.sp + P0.jmpBufSize ∧
      sr.sp = m0.sp) :=
  ⟨rfl, by decide, rfl, rfl,
    invoke_nested P0 cb0 9 1 3 m0 (preState P0 (preState P0 m0)) [] rfl
      (by decide) rfl rfl⟩

/-- Claim C6: the primitive's own side effects are stack-local writes only
(the zero-fill and the register capture, both confined to the reserved
buffer region of the current frame): the state handed to the callback has
the entry heap, globals and register file and an unchanged stack outside
the buffer, and after the callback returns the primitive changes nothing
except restoring the caller stack pointer, so repeated sequential calls
leave no residual state beyond what the callbacks themselves do. -/
theorem invoke_stack_local (P : Platform) (c : Callback) (d : Nat)
    (s s4 : Machine) (tcb : List Event)
    (hc : c.run d (preState P s) = some (s4, tcb)) :
    ∃ sf tr, flush_registers_and_call P c d s = some (sf, tr) ∧
      sf = { s4 with sp := s.sp } ∧
      (preState P s).heap = s.heap ∧
      (preState P s).globals = s.globals ∧
      (preState P s).regs = s.regs ∧
      (∀ a, a < s.sp → (preState P s).stack a = s.stack a) ∧
      (∀ a, s.sp + P.jmpBufSize ≤ a → (preState P s).stack a = s.stack a) := by
  refine ⟨{ s4 with sp := s.sp }, mainTrace P c.id d s.sp tcb,
    invoke_eq P c d s s4 tcb hc, rfl, rfl, rfl, rfl, ?_, ?_⟩
  · intro a ha
    have hn1 : ¬ (s.sp ≤ a ∧ a < s.sp + P.numRegs) := by omega
    have hn2 : ¬ (s.sp ≤ a ∧ a < s.sp + P.jmpBufSize) := by omega
    simp [preState, captureStep, setjmpOp, saveRegs, zeroFillStep, memset,
      reserveStep, hn1, hn2]
  · intro a ha
    have hfit := P.regs_fit
    have hn1 : ¬ (s.sp ≤ a ∧ a < s.sp + P.numRegs) := by omega
    have hn2 : ¬ (s.sp ≤ a ∧ a < s.sp + P.jmpBufSize) := by omega
    simp [preState, captureStep, setjmpOp, saveRegs, zeroFillStep, memset,
      reserveStep, hn1, hn2]

/-- Witness for C6 at a concrete platform, machine, callback and data. -/
theorem invoke_stack_local_witness :
    cb0.run 5 (preState P0 m0) = some (preState P0 m0, []) ∧
    (∃ sf tr, flush_registers_and_call P0 cb0 5 m0 = some (sf, tr) ∧
      sf = { preState P0 m0 with sp := m0.sp } ∧
      (preState P0 m0).heap = m0.heap ∧
      (preState P0 m0).globals = m0.globals ∧
      (preState P0 m0).regs = m0.regs ∧
      (∀ a, a < m0.sp → (preState P0 m0).stack a = m0.stack a) ∧
      (∀ a, m0.sp + P0.jmpBufSize ≤ a → (preState P0 m0).stack a = m0.stack a)) :=
  ⟨rfl, invoke_stack_local P0 cb0 5 m0 (preState P0 m0) [] rfl⟩

/-- Claim C7: the primitive has no error conditions: it yields a result
exactly when the callback does (it introduces no failure of its own), it
reports no error (its trace adds no error event beyond the callback trace),
and it has no return value to convey status (the C function returns void;
the embedded result carries only the machine state and the trace). -/
theorem invoke_no_error (P : Platform) (c : Callback) (d : Nat) (s : Machine) :
    (flush_registers_and_call P c d s).isSome =
      (c.run d (preState P s)).isSome ∧
    (∀ s4 tcb, c.run d (preState P s) = some (s4, tcb) →
      ∃ sf tr, flush_registers_and_call P c d s = some (sf, tr) ∧
        countErrs tr = countErrs tcb) := by
  constructor
  · cases hrun : c.run d (preState P s) with
    | none => simp [flush_registers_and_call, hrun]
    | some p =>
        cases p with
        | mk s4 tcb => simp [flush_registers_and_call, hrun]
  · intro s4 tcb hc
    exact ⟨{ s4 with sp := s.sp }, mainTrace P c.id d s.sp tcb,
      invoke_eq P c d s s4 tcb hc,
      by simp [countErrs, mainTrace, List.filter_append]⟩

/-- Witness for C7 at a concrete platform, machine, callback and data. -/
theorem invoke_no_error_witness :
    (flush_registers_and_call P0 cb0 5 m0).isSome =
      (cb0.run 5 (preState P0 m0)).isSome ∧
    (∀ s4 tcb, cb0.run 5 (preState P0 m0) = some (s4, tcb) →
      ∃ sf tr, flush_registers_and_call P0 cb0 5 m0 = some (sf, tr) ∧
        countErrs tr = countErrs tcb) :=
  invoke_no_error P0 cb0 5 m0

/-- Claim C8: when the data argument is the null reference (word value 0),
the primitive passes that same null value to the callback — the callback is
entered with argument exactly 0 — and the call completes without error. -/
theorem invoke_null_data (P : Platform) (c : Callback) (s s4 : Machine)
    (tcb : List Event) (hc : c.run 0 (preState P s) = some (s4, tcb)) :
    ∃ sf tr, flush_registers_and_call P c 0 s = some (sf, tr) ∧
      tr = mainTrace P c.id 0 s.sp tcb ∧
      Event.call c.id 0 ∈ tr ∧
      countErrs tr = countErrs tcb := by
  refine ⟨{ s4 with sp := s.sp }, mainTrace P c.id 0 s.sp tcb,
    invoke_eq P c 0 s s4 tcb hc, rfl, ?_, ?_⟩
  · simp [mainTrace]
  · simp [countErrs, mainTrace, List.filter_append]

/-- Witness for C8 at a concrete platform, machine and callback. -/
theorem invoke_null_data_witness :
    cb0.run 0 (preState P0 m0) = some (preState P0 m0, []) ∧
    (∃ sf tr, flush_registers_and_call P0 cb0 0 m0 = some (sf, tr) ∧
      tr = mainTrace P0 cb0.id 0 m0.sp [] ∧
      Event.call cb0.id 0 ∈ tr ∧
      countErrs tr = countErrs []) :=
  ⟨rfl, invoke_null_data P0 cb0 m0 (preState P0 m0) [] rfl⟩

/-- Claim C9: the primitive terminates exactly when the supplied callback
terminates; its body is straight-line code, so the embedded function yields
a result if and only if the callback run at the post-capture state does. -/
theorem invoke_terminates_iff (P : Platform) (c : Callback) (d : Nat)
    (s : Machine) :
    (∃ out, flush_registers_and_call P c d s = some out) ↔
    (∃ out, c.run d (preState P s) = some out) := by
  cases hrun : c.run d (preState P s) with
  | none => simp [flush_registers_and_call, hrun]
  | some p =>
      cases p with
      | mk s4 tcb => simp [flush_registers_and_call, hrun]

/-- Claim C10: the zero-fill writes value 0 to exactly the
`sizeof(jmp_buf)` cells of the frame-local buffer and changes nothing else
(no other stack cell, and not the stack pointer, heap, globals or
registers); and the register-context-save operation's return value is
discarded, so the primitive's behaviour is the same on any platform value
of that return. -/
theorem zerofill_exact_and_sjret_ignored (P : Platform) (base r : Nat)
    (s : Machine) (c : Callback) (d a : Nat) :
    (zeroFillStep P base s).stack a =
      (if base ≤ a ∧ a < base + P.jmpBufSize then 0 else s.stack a) ∧
    (zeroFillStep P base s).sp = s.sp ∧
    (zeroFillStep P base s).heap = s.heap ∧
    (zeroFillStep P base s).globals = s.globals ∧
    (zeroFillStep P base s).regs = s.regs ∧
    flush_registers_and_call P c d s =
      flush_registers_and_call { P with sjReturn := r } c d s := by
  refine ⟨rfl, rfl, rfl, rfl, rfl, rfl⟩
